import Mathlib

/-!
# Verification of the d3pm chart composition and normalization core

Shallow embedding of `src/d3pm/bridge.py`: the convenience chart
constructors (`bar`, `line`, `scatter`, `hist`), the `Chart` wrapper and its
overlay operator (`Chart.__mul__` / `Chart._overlay_charts`), and the
unified-series converter (`Chart._convert_to_unified_format`).

Conventions of the embedding:
* Python floats are modelled as exact rationals (`ℚ`); IEEE-754 rounding is
  not modelled.
* Python dicts used for chart options are modelled as association lists with
  first-match lookup; `Options.set` mirrors dict assignment (overwrite in
  place, else append), so keys stay unique and lookup agrees with dicts.
* Python exceptions (`ValueError`, `IndexError`, `TypeError`,
  `ZeroDivisionError`) are modelled with `Except String`; the error string
  carries the exception's identity.
* The rendered SVG string held by a `Chart` is the output of an external
  subprocess and is not modelled; a chart that holds only an SVG and no
  structured data (the "Opaque" state) is a `Chart` whose `data` is `none`.
* In `bridge.py` the `chart_type` string stored on a `Chart` is always
  consistent with the shape of `data` (every constructor passes matching
  values), so here the kind tag lives on the data itself (`ChartData`) and
  `chart_type` is read off it via `ChartData.ctype`.
-/

/-- A value stored in a chart's options dict.  The constructors only ever
store strings, numbers, booleans, lists of color strings and numeric pairs
(legend offsets), so those are the representable shapes. -/
inductive OptVal where
  | str (s : String)
  | num (q : ℚ)
  | boolean (b : Bool)
  | strList (l : List String)
  | numList (l : List ℚ)
  deriving Repr, DecidableEq

/-- Chart options: a Python dict keyed by strings. -/
abbrev Options := List (String × OptVal)

/-- Dict lookup (`options.get(k)` / `options[k]`): first entry with the key. -/
def Options.get (o : Options) (k : String) : Option OptVal :=
  (o.find? (fun p => p.1 == k)).map (fun p => p.2)

/-- Dict assignment `options[k] = v`: overwrite in place if the key exists,
otherwise append (Python dicts keep insertion order). -/
def Options.set (o : Options) (k : String) (v : OptVal) : Options :=
  if o.any (fun p => p.1 == k) then
    o.map (fun p => if p.1 == k then (k, v) else p)
  else
    o ++ [(k, v)]

/-- Python truthiness of an options value (`if options.get(k):`). -/
def OptVal.truthy : OptVal → Bool
  | .str s => s ≠ ""
  | .num q => q ≠ 0
  | .boolean b => b
  | .strList l => !l.isEmpty
  | .numList l => !l.isEmpty

/-- Truthiness of `options.get(k)` where a missing key gives `None` (falsy). -/
def optTruthy : Option OptVal → Bool
  | none => false
  | some v => v.truthy

/-- `options.get(k, default)` where the caller expects a string (chart
titles); a non-string value cannot be produced for `title` by any code
path in `bridge.py`, so the default stands in for that unreachable case. -/
def Options.getStrD (o : Options) (k d : String) : String :=
  match o.get k with
  | some (.str s) => s
  | _ => d

/-- `options.get('colors', [])`: the constructors only ever store a list of
color strings under `'colors'`. -/
def Options.getColors (o : Options) : List String :=
  match o.get "colors" with
  | some (.strList cs) => cs
  | _ => []

/-- One bar record `{"label": str, "value": float}`. -/
structure BarDatum where
  label : String
  value : ℚ
  deriving Repr, DecidableEq

/-- One point of a line/scatter series
`{"x": float, "y": float, "size"?: float, "label"?: str}`. -/
structure Point where
  x : ℚ
  y : ℚ
  size : Option ℚ := none
  label : Option String := none
  deriving Repr, DecidableEq

/-- One named series `{"name": str, "data": [Point]}`. -/
structure Series where
  name : String
  data : List Point
  deriving Repr, DecidableEq

/-- One histogram bin `{"binStart": float, "binEnd": float, "count": int}`. -/
structure HistBin where
  binStart : ℚ
  binEnd : ℚ
  count : ℕ
  deriving Repr, DecidableEq

/-- One heatmap cell `{"x": int, "y": int, "value": float, "text"?: str}`. -/
structure HeatCell where
  x : ℤ
  y : ℤ
  value : ℚ
  cellText : Option String := none
  deriving Repr, DecidableEq

/-- A graph node (dataclass `Node`); `shape` is `'rect'` or `'circle'`. -/
structure GNode where
  id : String
  text : String
  shape : String
  xPos : Option ℚ := none
  yPos : Option ℚ := none
  color : Option String := none
  tooltip : Option String := none
  deriving Repr, DecidableEq

/-- A graph edge (dataclass `Edge`). -/
structure GEdge where
  source : String
  target : String
  label : Option String := none
  deriving Repr, DecidableEq

/-- A point of the unified cross-kind representation produced by
`_convert_to_unified_format`: always `x`/`y`, plus `size` (line/scatter),
`label` (bar) or `binStart`/`binEnd` (histogram) when the source kind has
them. -/
structure UPoint where
  x : ℚ
  y : ℚ
  size : Option ℚ := none
  label : Option String := none
  binStart : Option ℚ := none
  binEnd : Option ℚ := none
  deriving Repr, DecidableEq

mutual

/-- Payload of a unified series: structured points for bar / line / scatter
/ histogram sources, or the raw chart data passed through unchanged for the
remaining kinds (`self.data if isinstance(self.data, list) else
[self.data]`). -/
inductive UData where
  | pts (ps : List UPoint)
  | raw (d : ChartData)

/-- One unified series `{"name": str, "renderType": str, "data": [...]}`. -/
inductive USeries where
  | mk (name : String) (renderType : String) (data : UData)

/-- Kind-tagged chart data, mirroring the `chart_type` / `data` pair stored
on a `Chart` by the constructors in `bridge.py`. -/
inductive ChartData where
  | bar (items : List BarDatum)
  | line (ss : List Series)
  | scatter (ss : List Series)
  | hist (bins : List HistBin)
  | heatmap (cells : List HeatCell)
  | graphData (nodes : List GNode) (edges : List GEdge)
  | composite (us : List USeries)

end

def USeries.name : USeries → String
  | .mk n _ _ => n

def USeries.renderType : USeries → String
  | .mk _ r _ => r

def USeries.data : USeries → UData
  | .mk _ _ d => d

/-- The `chart_type` string stored next to the data (`'hist'`, not
`'histogram'`, exactly as the `hist` constructor passes it). -/
def ChartData.ctype : ChartData → String
  | .bar _ => "bar"
  | .line _ => "line"
  | .scatter _ => "scatter"
  | .hist _ => "hist"
  | .heatmap _ => "heatmap"
  | .graphData _ _ => "graph"
  | .composite _ => "composite"

/-- Python `len(self.data)`: length of the list, or the number of keys (2:
`"nodes"`, `"edges"`) for the graph dict. -/
def ChartData.pyLen : ChartData → ℕ
  | .bar items => items.length
  | .line ss => ss.length
  | .scatter ss => ss.length
  | .hist bins => bins.length
  | .heatmap cells => cells.length
  | .graphData _ _ => 2
  | .composite us => us.length

/-- `len(self.data) if self.data else 1`: an empty list is falsy. -/
def ChartData.seriesCount (d : ChartData) : ℕ :=
  if d.pyLen = 0 then 1 else d.pyLen

/-- The `Chart` wrapper: composition metadata.  `data = none` models a chart
that was built from a rendered SVG only (the result of `+` / `/`
composition); the SVG string itself is external output and not modelled. -/
structure Chart where
  data : Option ChartData
  options : Options
  width : ℤ
  height : ℤ

/-- `Chart.chart_type` as stored in Python, derived from the tagged data
(`none` for an SVG-only chart, whose `chart_type` is `None`). -/
def Chart.ctype (c : Chart) : Option String :=
  c.data.map ChartData.ctype

/-- `_build_chart_options`: title / axis labels when given, then width and
height, then the extra keyword options. -/
def buildChartOptions (title xlabel ylabel : Option String) (width height : ℤ)
    (extra : Options) : Options :=
  (match title with | some t => [("title", OptVal.str t)] | none => [])
    ++ (match xlabel with | some t => [("xLabel", OptVal.str t)] | none => [])
    ++ (match ylabel with | some t => [("yLabel", OptVal.str t)] | none => [])
    ++ [("width", OptVal.num width), ("height", OptVal.num height)]
    ++ extra

/-- Append `options['colors'] = colors` when a colors argument was given. -/
def addColors (o : Options) (colors : Option (List String)) : Options :=
  match colors with
  | some cs => o.set "colors" (OptVal.strList cs)
  | none => o

/-- The legend options every constructor appends
(`legendPosition`, `legendOffset`, `legendStyle`). -/
def addLegendOptions (o : Options) (legendPosition : String)
    (legendOffset : ℚ × ℚ) (legendStyle : String) : Options :=
  ((o.set "legendPosition" (OptVal.str legendPosition)).set
      "legendOffset" (OptVal.numList [legendOffset.1, legendOffset.2])).set
    "legendStyle" (OptVal.str legendStyle)

/-- The `bar` constructor: validates the category/value lengths, zips the
pairs into `{"label", "value"}` records, builds the options and wraps
everything in a `Chart` (the render call to the external engine is not
modelled). -/
def barChart (categories : List String) (values : List ℚ)
    (colors : Option (List String)) (title xlabel ylabel : Option String)
    (width height : ℤ) (yticks : ℚ) (legendPosition : String)
    (legendOffset : ℚ × ℚ) (legendStyle : String) (tickNumbers : String)
    (originLabels axisAtOrigin : Bool) : Except String Chart :=
  if categories.length ≠ values.length then
    .error "ValueError: Categories and values arrays must have the same length"
  else
    let cleanData := (categories.zip values).map fun p => BarDatum.mk p.1 p.2
    let opts := buildChartOptions title xlabel ylabel width height
      [("yticks", OptVal.num yticks), ("tickNumbers", OptVal.str tickNumbers),
       ("originLabels", OptVal.boolean originLabels),
       ("axisAtOrigin", OptVal.boolean axisAtOrigin)]
    let opts := addLegendOptions (addColors opts colors)
      legendPosition legendOffset legendStyle
    .ok ⟨some (.bar cleanData), opts, width, height⟩

/-- An array-like argument to `line`: either a flat list of numbers or a
list of per-series lists (the multi-series form). -/
inductive ArrayArg where
  | flat (vals : List ℚ)
  | nested (arrs : List (List ℚ))
  deriving Repr, DecidableEq

/-- The `label` argument of `line`: `None`, a single label, or a list of
per-series labels. -/
inductive LabelArg where
  | nolabel
  | one (s : String)
  | many (ls : List String)
  deriving Repr, DecidableEq

/-- Python `str(...)` of a list of strings, as produced by an f-string
(only reachable when a label list is passed for a single series). -/
def pyStrList (ls : List String) : String :=
  "[" ++ String.intercalate ", " (ls.map fun s => "\x27" ++ s ++ "\x27") ++ "]"

/-- `line`'s label handling for the multi-series branch: pad a label list
with empty strings up to the series count (never truncate); spread a scalar
label over the first series. -/
def multiLabels (label : LabelArg) (n : ℕ) : List String :=
  match label with
  | .nolabel => List.replicate n ""
  | .many ls => ls ++ List.replicate (n - ls.length) ""
  | .one s => s :: List.replicate (n - 1) ""

/-- `line`'s series name for the single-series branch:
`label if label is not None and str(label).strip() != "" else ""`. -/
def singleSeriesName (label : LabelArg) : String :=
  match label with
  | .nolabel => ""
  | .one s => if s.trim = "" then "" else s
  | .many ls => pyStrList ls

/-- `safe_convert` applied to something that must be a flat numeric array;
a nested list there makes Python's `float(...)` raise `TypeError`. -/
def flatVals : ArrayArg → Except String (List ℚ)
  | .flat vs => .ok vs
  | .nested _ => .error "TypeError: float() argument must be a number"

/-- The `line` constructor.  Multi-series is detected when `y` is given and
the first element of `x` is itself array-like; in that branch `x` and `y`
are parallel lists of series (zipped, so the shorter one decides) and
labels are padded.  The single-series branch auto-generates `x = range(len
(y))` when only one array is given and pairs `x` with `y` by `zip` — no
length check is performed, the longer array is silently truncated. -/
def lineChart (x : ArrayArg) (y : Option ArrayArg) (label : LabelArg)
    (colors : Option (List String)) (title xlabel ylabel : Option String)
    (width height : ℤ) (xticks yticks : ℚ) (legendPosition : String)
    (legendOffset : ℚ × ℚ) (legendStyle : String) (tickNumbers : String)
    (originLabels axisAtOrigin : Bool) : Except String Chart := do
  let cleanData ← (do
    match x, y with
    | .nested (x0 :: xrest), some yArg =>
      match yArg with
      | .nested ys =>
        let xArrays := x0 :: xrest
        let labels := multiLabels label xArrays.length
        pure ((xArrays.zip ys).mapIdx fun i p =>
          Series.mk (labels.getD i "")
            ((p.1.zip p.2).map fun q => Point.mk q.1 q.2 none none))
      | .flat _ =>
        -- zip pairs each x-array with a scalar; `safe_convert` then
        -- iterates a float, raising TypeError
        Except.error "TypeError: float object is not iterable"
    | _, _ =>
      match y with
      | none => do
        let yClean ← flatVals x
        let xClean := (List.range yClean.length).map (fun i => (i : ℚ))
        pure [Series.mk (singleSeriesName label)
          ((xClean.zip yClean).map fun q => Point.mk q.1 q.2 none none)]
      | some yArg => do
        let xClean ← flatVals x
        let yClean ← flatVals yArg
        pure [Series.mk (singleSeriesName label)
          ((xClean.zip yClean).map fun q => Point.mk q.1 q.2 none none)])
  let opts := buildChartOptions title xlabel ylabel width height
    [("xticks", OptVal.num xticks), ("yticks", OptVal.num yticks),
     ("tickNumbers", OptVal.str tickNumbers),
     ("originLabels", OptVal.boolean originLabels),
     ("axisAtOrigin", OptVal.boolean axisAtOrigin)]
  let opts := addLegendOptions (addColors opts colors)
    legendPosition legendOffset legendStyle
  pure ⟨some (.line cleanData), opts, width, height⟩

/-- The `scatter` constructor: optional `size` and `labels` arrays must
match the length of `x` (a mismatch raises `ValueError` naming the array);
`x` and `y` themselves are paired by `zip` with no length check. -/
def scatterChart (x y : List ℚ) (size : Option (List ℚ))
    (labels : Option (List String)) (label : Option String)
    (colors : Option (List String)) (title xlabel ylabel : Option String)
    (width height : ℤ) (xticks yticks : ℚ) (legendPosition : String)
    (legendOffset : ℚ × ℚ) (legendStyle : String) (tickNumbers : String)
    (originLabels axisAtOrigin : Bool) (labelColor : Option String)
    (labelPosition : Option String) : Except String Chart := do
  match size with
  | some s =>
    if s.length ≠ x.length then
      throw "ValueError: Size array must have same length as x and y arrays"
  | none => pure ()
  match labels with
  | some ls =>
    if ls.length ≠ x.length then
      throw "ValueError: Labels array must have same length as x and y arrays"
  | none => pure ()
  let dataPoints := (x.zip y).mapIdx fun i p =>
    Point.mk p.1 p.2 (size.map fun s => s.getD i 0)
      (labels.map fun ls => ls.getD i "")
  let seriesName := match label with
    | some s => if s.trim = "" then "" else s
    | none => ""
  let opts := buildChartOptions title xlabel ylabel width height
    [("xticks", OptVal.num xticks), ("yticks", OptVal.num yticks),
     ("tickNumbers", OptVal.str tickNumbers),
     ("originLabels", OptVal.boolean originLabels),
     ("axisAtOrigin", OptVal.boolean axisAtOrigin)]
  let opts := addLegendOptions (addColors opts colors)
    legendPosition legendOffset legendStyle
  let opts := match labelColor with
    | some c => opts.set "labelColor" (OptVal.str c)
    | none => opts
  let opts := match labelPosition with
    | some p => opts.set "labelPosition" (OptVal.str p)
    | none => opts
  pure ⟨some (.scatter [Series.mk seriesName dataPoints]), opts, width, height⟩

/-- The `bins` argument of `hist`: an integer bin count or explicit edges. -/
inductive BinsArg where
  | count (n : ℤ)
  | edges (es : List ℚ)
  deriving Repr, DecidableEq

/-- Python `min(seq)`: `ValueError` on an empty sequence. -/
def pyMin : List ℚ → Except String ℚ
  | [] => .error "ValueError: min() arg is an empty sequence"
  | v :: vs => .ok (vs.foldl min v)

/-- Python `max(seq)`: `ValueError` on an empty sequence. -/
def pyMax : List ℚ → Except String ℚ
  | [] => .error "ValueError: max() arg is an empty sequence"
  | v :: vs => .ok (vs.foldl max v)

/-- The inner loop of `hist`'s counting pass over a list of candidate bin
indices: the first index whose bin contains the value wins (`break`);
every bin is half-open `[start, end)` except the last (`i == bins - 1`),
which is closed; reading a missing edge is Python's `IndexError`. -/
def findBinGo (binEdges : List ℚ) (bins : ℕ) (value : ℚ) :
    List ℕ → Except String (Option ℕ)
  | [] => .ok none
  | i :: rest =>
    match binEdges.get? i, binEdges.get? (i + 1) with
    | some lo, some hi =>
      if (if i = bins - 1 then lo ≤ value ∧ value ≤ hi
          else lo ≤ value ∧ value < hi) then
        .ok (some i)
      else
        findBinGo binEdges bins value rest
    | _, _ => .error "IndexError: list index out of range"

/-- `for i in range(bins): ...` — the bin lookup for one value. -/
def findBin (binEdges : List ℚ) (bins : ℕ) (value : ℚ) :
    Except String (Option ℕ) :=
  findBinGo binEdges bins value (List.range bins)

/-- The counting pass of `hist`: start from `[0] * bins` and bump the first
matching bin for each value (`hist_counts[i] += 1`); a value matching no
bin is skipped.  The found index is always `< bins`, so `List.set` never
silently drops an update. -/
def histCounts (binEdges : List ℚ) (bins : ℕ) (values : List ℚ) :
    Except String (List ℕ) :=
  values.foldlM
    (fun counts v => do
      match ← findBin binEdges bins v with
      | some i => pure (counts.set i (counts.getD i 0 + 1))
      | none => pure counts)
    (List.replicate bins 0)

/-- The output pass of `hist`: one `{"binStart", "binEnd", "count"}` record
per bin; `bin_edges[i + 1]` past the end of the edge list is Python's
`IndexError`. -/
def buildBins (binEdges : List ℚ) (counts : List ℕ) (bins : ℕ) :
    Except String (List HistBin) :=
  (List.range bins).mapM fun i =>
    match binEdges.get? i, binEdges.get? (i + 1), counts.get? i with
    | some lo, some hi, some c => .ok (HistBin.mk lo hi c)
    | _, _, _ => .error "IndexError: list index out of range"

/-- The `min != max` branch of `hist`'s automatic edge generation:
`[min_val + i * bin_width for i in range(bins + 1)]` with
`bin_width = (max_val - min_val) / bins`. -/
def autoEdges (mn mx : ℚ) (n : ℤ) : List ℚ :=
  (List.range (n + 1).toNat).map fun i : ℕ =>
    mn + (i : ℚ) * ((mx - mn) / (n : ℚ))

/-- The binning core of `hist`: edge generation (automatic from an integer
count — with the `min == max` degenerate branch producing the two edges
`[min - 0.5, max + 0.5]` but leaving `bins` unchanged — or user-supplied,
with `bins = len(edges) - 1`), then counting, then the bin records.
Negative `bins` behaves like Python: every `range(...)` is empty. -/
def histData (values : List ℚ) (bins : BinsArg) :
    Except String (List HistBin) := do
  let (binEdges, nbins) ← (do
    match bins with
    | .count n => do
      let mn ← pyMin values
      let mx ← pyMax values
      if mn = mx then
        pure ([mn - 1/2, mx + 1/2], n)
      else if n = 0 then
        Except.error "ZeroDivisionError: division by zero"
      else
        pure (autoEdges mn mx n, n)
    | .edges es => pure (es, (es.length : ℤ) - 1))
  let nb := nbins.toNat
  let counts ← histCounts binEdges nb values
  buildBins binEdges counts nb

/-- The `hist` constructor: the binning core wrapped into a `Chart` with
the standard options. -/
def histChart (values : List ℚ) (bins : BinsArg)
    (colors : Option (List String)) (title xlabel ylabel : Option String)
    (width height : ℤ) (xticks yticks : ℚ) (legendPosition : String)
    (legendOffset : ℚ × ℚ) (legendStyle : String) (tickNumbers : String)
    (originLabels axisAtOrigin : Bool) : Except String Chart := do
  let cleanData ← histData values bins
  let opts := buildChartOptions title xlabel ylabel width height
    [("xticks", OptVal.num xticks), ("yticks", OptVal.num yticks),
     ("tickNumbers", OptVal.str tickNumbers),
     ("originLabels", OptVal.boolean originLabels),
     ("axisAtOrigin", OptVal.boolean axisAtOrigin)]
  let opts := addLegendOptions (addColors opts colors)
    legendPosition legendOffset legendStyle
  pure ⟨some (.hist cleanData), opts, width, height⟩

/-- `Chart._convert_to_unified_format`: map each kind's native records to
renderType-tagged unified series.  Bar charts become one series whose i-th
point is `{x: i, y: value, label: label}`; line/scatter series keep `x`,
`y` and `size` (the point-level `label` of scatter is dropped); histograms
become one series of bin midpoints carrying `binStart`/`binEnd`; every
other kind is passed through raw under its own renderType. -/
def convertToUnified (d : ChartData) (opts : Options) : List USeries :=
  match d with
  | .bar items =>
    [USeries.mk (opts.getStrD "title" "Bar Data") "bar"
      (.pts (items.mapIdx fun i it =>
        { x := (i : ℚ), y := it.value, label := some it.label }))]
  | .line ss =>
    ss.map fun s =>
      USeries.mk s.name "line"
        (.pts (s.data.map fun p => { x := p.x, y := p.y, size := p.size }))
  | .scatter ss =>
    ss.map fun s =>
      USeries.mk s.name "scatter"
        (.pts (s.data.map fun p => { x := p.x, y := p.y, size := p.size }))
  | .hist bins =>
    [USeries.mk (opts.getStrD "title" "Histogram") "histogram"
      (.pts (bins.map fun b =>
        { x := (b.binStart + b.binEnd) / 2, y := (b.count : ℚ),
          binStart := some b.binStart, binEnd := some b.binEnd }))]
  | other =>
    [USeries.mk (opts.getStrD "title" (other.ctype ++ " Data")) other.ctype
      (.raw other)]

/-- The fixed 8-color default palette of `_overlay_charts`. -/
def defaultColors : List String :=
  ["#658DCD", "#B1A04C", "#75A592", "#CF7280",
   "#A97ACC", "#C98C6C", "#E58BB7", "#7C7FB0"]

/-- Result of `Chart.__mul__` (`_overlay_charts`): either the metadata
merge, or — when an operand carries no data — the fallback to SVG-level
composition `self._compose_charts(other, 'stack')`, whose output is built
by the external engine from the rendered images. -/
inductive OverlayResult where
  | stackFallback
  | merged (c : Chart)

def OverlayResult.isMerged : OverlayResult → Bool
  | .stackFallback => false
  | .merged _ => true

/-- The chart produced by a metadata-merge overlay, if any. -/
def OverlayResult.chart? : OverlayResult → Option Chart
  | .stackFallback => none
  | .merged c => some c

/-- The options-merging part of `_overlay_charts`: copy the first chart's
options; combine titles (both truthy → `"a & b"`, only the second truthy →
the second's); build the combined colors list (each side contributes its
explicit `colors` list, or default-palette colors — one per element of its
data, continuing at the index where the merged list currently ends); then
record the componentwise-max dimensions. -/
def mergeOverlayOptions (o1 o2 : Options) (d1 d2 : ChartData)
    (w h : ℤ) : Options :=
  let m := o1
  let m :=
    if optTruthy (o2.get "title") ∧ optTruthy (o1.get "title") then
      m.set "title"
        (OptVal.str (o1.getStrD "title" "" ++ " & " ++ o2.getStrD "title" ""))
    else if optTruthy (o2.get "title") ∧ ¬ optTruthy (o1.get "title") then
      match o2.get "title" with
      | some v => m.set "title" v
      | none => m
    else m
  let colors1 := o1.getColors
  let colors2 := o2.getColors
  let part1 := if colors1.isEmpty then defaultColors.take d1.seriesCount
               else colors1
  let startIdx := part1.length
  let part2 := if colors2.isEmpty then
                 (defaultColors.drop startIdx).take d2.seriesCount
               else colors2
  let m := m.set "colors" (OptVal.strList (part1 ++ part2))
  let m := m.set "width" (OptVal.num w)
  m.set "height" (OptVal.num h)

/-- `Chart._overlay_charts`: without data on either side, fall back to
SVG stacking.  With data on both sides, concatenate series directly when
both charts are line charts or both are scatter charts, otherwise convert
both to the unified format and concatenate into a `composite` chart, then
merge the options and take the larger dimensions.  No branch raises. -/
def overlayCharts (c1 c2 : Chart) : OverlayResult :=
  match c1.data, c2.data with
  | some d1, some d2 =>
    let combined : ChartData :=
      match d1, d2 with
      | .line s1, .line s2 => .line (s1 ++ s2)
      | .scatter s1, .scatter s2 => .scatter (s1 ++ s2)
      | e1, e2 =>
        .composite (convertToUnified e1 c1.options ++
          convertToUnified e2 c2.options)
    let w := max c1.width c2.width
    let h := max c1.height c2.height
    .merged ⟨some combined,
      mergeOverlayOptions c1.options c2.options d1 d2 w h, w, h⟩
  | _, _ => .stackFallback

/-! ## Specification-side definitions -/

/-- Whether bin `i` (of `bins`) contains `value` under the binning rule the
spec describes: half-open `[start, end)` for every bin except the last
(`i = bins - 1`), which is closed `[start, end]`. -/
def binContainsB (binEdges : List ℚ) (bins i : ℕ) (value : ℚ) : Bool :=
  if i = bins - 1 then
    decide (binEdges.getD i 0 ≤ value ∧ value ≤ binEdges.getD (i + 1) 0)
  else
    decide (binEdges.getD i 0 ≤ value ∧ value < binEdges.getD (i + 1) 0)

/-- The first bin containing `value`, if any. -/
def firstBin (binEdges : List ℚ) (bins : ℕ) (value : ℚ) : Option ℕ :=
  (List.range bins).find? (fun i => binContainsB binEdges bins i value)

/-- Pure counting by first-matching-bin assignment: what `hist`'s counting
loop computes on in-range indices. -/
def histCountsSpec (binEdges : List ℚ) (bins : ℕ) (values : List ℚ) :
    List ℕ :=
  values.foldl
    (fun counts v =>
      match firstBin binEdges bins v with
      | some i => counts.set i (counts.getD i 0 + 1)
      | none => counts)
    (List.replicate bins 0)

/-! ## Options dictionary lemmas -/

theorem find?_setMap_self (o : Options) (k : String) (v : OptVal)
    (h : o.any (fun p => p.1 == k) = true) :
    (o.map (fun p => if p.1 == k then (k, v) else p)).find?
      (fun p => p.1 == k) = some (k, v) := by
  induction o with
  | nil => simp at h
  | cons p rest ih =>
    rw [List.map_cons, List.find?_cons]
    by_cases hp : (p.1 == k) = true
    · rw [if_pos hp]
      simp
    · rw [if_neg hp]
      simp only [hp]
      rw [List.any_cons] at h
      simp only [hp, Bool.false_or] at h
      exact ih h

theorem find?_setMap_ne (o : Options) (k k' : String) (v : OptVal)
    (h : k' ≠ k) :
    (o.map (fun p => if p.1 == k then (k, v) else p)).find?
      (fun p => p.1 == k') = (o.find? (fun p => p.1 == k')).map
        (fun p => if p.1 == k then (k, v) else p) := by
  induction o with
  | nil => rfl
  | cons p rest ih =>
    rw [List.map_cons, List.find?_cons, List.find?_cons]
    by_cases hp : (p.1 == k) = true
    · have hpk : p.1 = k := by simpa using hp
      have h1 : ((k : String) == k') = false := by
        simp only [beq_eq_false_iff_ne, ne_eq]
        exact fun hkk => h hkk.symm
      have h2 : (p.1 == k') = false := by
        rw [hpk]
        exact h1
      rw [if_pos hp]
      simp only [h1, h2]
      exact ih
    · rw [if_neg hp]
      by_cases hq : (p.1 == k') = true
      · simp only [hq]
        have hpk : p.1 ≠ k := by simpa using hp
        simp [if_neg hpk]
      · simp only [eq_false_of_ne_true hq]
        exact ih

theorem Options.get_set_self (o : Options) (k : String) (v : OptVal) :
    (o.set k v).get k = some v := by
  unfold Options.set
  by_cases h : o.any (fun p => p.1 == k) = true
  · rw [if_pos h]
    unfold Options.get
    rw [find?_setMap_self o k v h]
    rfl
  · rw [if_neg h]
    unfold Options.get
    rw [List.find?_append]
    have hnone : o.find? (fun p => p.1 == k) = none := by
      rw [List.find?_eq_none]
      intro x hx hxk
      exact h (List.any_eq_true.mpr ⟨x, hx, hxk⟩)
    rw [hnone]
    simp [List.find?_cons]

theorem Options.get_set_ne (o : Options) (k k' : String) (v : OptVal)
    (h : k' ≠ k) : (o.set k v).get k' = o.get k' := by
  unfold Options.set
  by_cases ha : o.any (fun p => p.1 == k) = true
  · rw [if_pos ha]
    unfold Options.get
    rw [find?_setMap_ne o k k' v h]
    cases hfind : o.find? (fun p => p.1 == k') with
    | none => rfl
    | some p =>
      have hp : (p.1 == k') = true :=
        @List.find?_some _ (fun q : String × OptVal => q.1 == k') p o hfind
      have hpk : p.1 ≠ k := by
        intro hpk
        have hkk : k = k' := by
          rw [← hpk]
          simpa using hp
        exact h hkk.symm
      simp [hpk]
  · rw [if_neg ha]
    unfold Options.get
    rw [List.find?_append]
    have : List.find? (fun p => p.1 == k') [(k, v)] = none := by
      simp only [List.find?_cons, List.find?_nil]
      have : ((k : String) == k') = false := by
        simp only [beq_eq_false_iff_ne, ne_eq]
        exact fun hkk => h hkk.symm
      simp [this]
    rw [this]
    cases o.find? (fun p => p.1 == k') <;> rfl

/-! ## First-match characterization of the bin search -/

theorem find?_range_eq_some_iff (n : ℕ) (p : ℕ → Bool) (i : ℕ) :
    (List.range n).find? p = some i ↔
      i < n ∧ p i = true ∧ ∀ j < i, p j = false := by
  induction n generalizing p i with
  | zero => simp [List.range_zero]
  | succ n ih =>
    rw [List.range_succ_eq_map, List.find?_cons]
    cases hp0 : p 0 with
    | true =>
      simp only [hp0]
      constructor
      · intro hsome
        have hi : i = 0 := by
          simpa using hsome.symm
        subst hi
        exact ⟨Nat.succ_pos n, hp0, fun j hj => absurd hj (Nat.not_lt_zero j)⟩
      · intro ⟨_, _, hmin⟩
        by_cases hi : i = 0
        · subst hi
          rfl
        · have := hmin 0 (Nat.pos_of_ne_zero hi)
          rw [hp0] at this
          exact absurd this (by simp)
    | false =>
      simp only [hp0]
      rw [List.find?_map]
      constructor
      · intro hsome
        obtain ⟨i', hfound, hii⟩ : ∃ i',
            (List.range n).find? (p ∘ Nat.succ) = some i' ∧ i = i' + 1 := by
          cases hfind : (List.range n).find? (p ∘ Nat.succ) with
          | none => rw [hfind] at hsome; simp at hsome
          | some j =>
            rw [hfind] at hsome
            exact ⟨j, rfl, by simpa using hsome.symm⟩
        have ⟨h1, h2, h3⟩ := (ih (p ∘ Nat.succ) i').mp hfound
        subst hii
        refine ⟨Nat.succ_lt_succ h1, h2, fun j hj => ?_⟩
        cases j with
        | zero => exact hp0
        | succ j' => exact h3 j' (Nat.lt_of_succ_lt_succ hj)
      · intro ⟨h1, h2, h3⟩
        cases i with
        | zero =>
          rw [hp0] at h2
          exact absurd h2 (by simp)
        | succ i' =>
          have : (List.range n).find? (p ∘ Nat.succ) = some i' :=
            (ih (p ∘ Nat.succ) i').mpr
              ⟨Nat.lt_of_succ_lt_succ h1, h2,
               fun j hj => h3 (j + 1) (Nat.succ_lt_succ hj)⟩
          rw [this]
          rfl

theorem firstBin_eq_some_iff (binEdges : List ℚ) (bins : ℕ) (v : ℚ)
    (i : ℕ) :
    firstBin binEdges bins v = some i ↔
      i < bins ∧ binContainsB binEdges bins i v = true ∧
        ∀ j < i, binContainsB binEdges bins j v = false := by
  exact find?_range_eq_some_iff bins (fun j => binContainsB binEdges bins j v) i

theorem firstBin_eq_none_iff (binEdges : List ℚ) (bins : ℕ) (v : ℚ) :
    firstBin binEdges bins v = none ↔
      ∀ j < bins, binContainsB binEdges bins j v = false := by
  unfold firstBin
  rw [List.find?_eq_none]
  constructor
  · intro h j hj
    have := h j (List.mem_range.mpr hj)
    simpa using this
  · intro h x hx
    rw [h x (List.mem_range.mp hx)]
    simp

theorem firstBin_lt (binEdges : List ℚ) (bins : ℕ) (v : ℚ) (i : ℕ)
    (h : firstBin binEdges bins v = some i) : i < bins :=
  ((firstBin_eq_some_iff binEdges bins v i).mp h).1

/-! ## The counting loop computes first-match counts -/

theorem findBinGo_eq (binEdges : List ℚ) (bins : ℕ) (v : ℚ)
    (hsafe : bins + 1 ≤ binEdges.length) :
    ∀ l : List ℕ, (∀ i ∈ l, i < bins) →
      findBinGo binEdges bins v l =
        .ok (l.find? (fun i => binContainsB binEdges bins i v)) := by
  intro l
  induction l with
  | nil => intro _; rfl
  | cons i rest ih =>
    intro hmem
    have hi : i < bins := hmem i (List.mem_cons_self i rest)
    have hi1 : i < binEdges.length := lt_of_lt_of_le hi (Nat.le_of_succ_le hsafe)
    have hi2 : i + 1 < binEdges.length := lt_of_lt_of_le (Nat.succ_lt_succ hi) hsafe
    rw [findBinGo, List.find?_cons]
    have hgi : binEdges.get? i = some (binEdges.getD i 0) := by
      rw [List.get?_eq_getElem?, List.getD_eq_getElem _ _ hi1,
        List.getElem?_eq_getElem hi1]
    have hgi1 : binEdges.get? (i + 1) = some (binEdges.getD (i + 1) 0) := by
      rw [List.get?_eq_getElem?, List.getD_eq_getElem _ _ hi2,
        List.getElem?_eq_getElem hi2]
    rw [hgi, hgi1]
    by_cases hc : binContainsB binEdges bins i v = true
    · simp only [hc]
      rw [if_pos]
      unfold binContainsB at hc
      by_cases hlast : i = bins - 1
      · rw [if_pos hlast] at hc ⊢
        exact of_decide_eq_true hc
      · rw [if_neg hlast] at hc ⊢
        exact of_decide_eq_true hc
    · simp only [eq_false_of_ne_true hc]
      rw [if_neg]
      · exact ih (fun j hj => hmem j (List.mem_cons_of_mem i hj))
      · unfold binContainsB at hc
        by_cases hlast : i = bins - 1
        · rw [if_pos hlast] at hc ⊢
          exact fun hh => hc (decide_eq_true hh)
        · rw [if_neg hlast] at hc ⊢
          exact fun hh => hc (decide_eq_true hh)

theorem findBin_eq (binEdges : List ℚ) (bins : ℕ) (v : ℚ)
    (hsafe : bins + 1 ≤ binEdges.length) :
    findBin binEdges bins v = .ok (firstBin binEdges bins v) :=
  findBinGo_eq binEdges bins v hsafe (List.range bins)
    (fun _ hi => List.mem_range.mp hi)

theorem histCounts_eq_aux (binEdges : List ℚ) (bins : ℕ) (v : ℚ)
    (values : List ℚ) (init : List ℕ)
    (hsafe : bins + 1 ≤ binEdges.length) :
    List.foldlM
      (fun counts v => do
        match ← findBin binEdges bins v with
        | some i => pure (counts.set i (counts.getD i 0 + 1))
        | none => pure counts)
      init (v :: values) =
    List.foldlM
      (fun counts v => do
        match ← findBin binEdges bins v with
        | some i => pure (counts.set i (counts.getD i 0 + 1))
        | none => pure counts)
      (match firstBin binEdges bins v with
       | some i => init.set i (init.getD i 0 + 1)
       | none => init) values := by
  rw [List.foldlM_cons]
  rw [findBin_eq binEdges bins v hsafe]
  cases firstBin binEdges bins v <;> rfl

theorem histCounts_eq (binEdges : List ℚ) (bins : ℕ) (values : List ℚ)
    (hsafe : bins + 1 ≤ binEdges.length) :
    histCounts binEdges bins values =
      .ok (histCountsSpec binEdges bins values) := by
  unfold histCounts histCountsSpec
  generalize List.replicate bins 0 = init
  induction values generalizing init with
  | nil => rfl
  | cons v vs ih =>
    rw [histCounts_eq_aux binEdges bins v vs init hsafe, List.foldl_cons]
    exact ih _

theorem getD_set_succ_self (l : List ℕ) (i : ℕ) (hi : i < l.length) :
    (l.set i (l.getD i 0 + 1)).getD i 0 = l.getD i 0 + 1 := by
  rw [List.getD_eq_getElem?_getD, List.getElem?_set, if_pos rfl, if_pos hi]
  rfl

theorem getD_set_ne (l : List ℕ) (i j : ℕ) (a : ℕ) (h : i ≠ j) :
    (l.set i a).getD j 0 = l.getD j 0 := by
  rw [List.getD_eq_getElem?_getD, List.getElem?_set, if_neg h,
    ← List.getD_eq_getElem?_getD]

theorem histCountsSpec_length (binEdges : List ℚ) (bins : ℕ)
    (values : List ℚ) :
    (histCountsSpec binEdges bins values).length = bins := by
  unfold histCountsSpec
  have : ∀ (vs : List ℚ) (init : List ℕ),
      (vs.foldl
        (fun counts v =>
          match firstBin binEdges bins v with
          | some i => counts.set i (counts.getD i 0 + 1)
          | none => counts)
        init).length = init.length := by
    intro vs
    induction vs with
    | nil => intro init; rfl
    | cons v vs ih =>
      intro init
      rw [List.foldl_cons]
      cases firstBin binEdges bins v with
      | none => exact ih init
      | some i =>
        rw [ih]
        exact List.length_set init i _
  rw [this, List.length_replicate]

theorem histCountsSpec_getD (binEdges : List ℚ) (bins : ℕ)
    (values : List ℚ) (i : ℕ) :
    (histCountsSpec binEdges bins values).getD i 0 =
      values.countP (fun v => firstBin binEdges bins v == some i) := by
  unfold histCountsSpec
  have key : ∀ (vs : List ℚ) (init : List ℕ), init.length = bins →
      (vs.foldl
        (fun counts v =>
          match firstBin binEdges bins v with
          | some i => counts.set i (counts.getD i 0 + 1)
          | none => counts)
        init).getD i 0 =
        init.getD i 0 + vs.countP (fun v => firstBin binEdges bins v == some i) := by
    intro vs
    induction vs with
    | nil =>
      intro init _
      simp [List.countP_nil]
    | cons v vs ih =>
      intro init hlen
      rw [List.foldl_cons, List.countP_cons]
      cases hfb : firstBin binEdges bins v with
      | none =>
        rw [ih init hlen]
        simp
      | some j =>
        have hj : j < init.length := by
          rw [hlen]
          exact firstBin_lt binEdges bins v j hfb
        rw [ih _ (by rw [List.length_set]; exact hlen)]
        by_cases hij : j = i
        · subst hij
          rw [getD_set_succ_self init j hj]
          simp only [beq_self_eq_true, if_true]
          omega
        · rw [getD_set_ne init j i _ hij]
          have hne : (some j == some i) = false := by
            simpa using hij
          rw [hne]
          simp
  rw [key values (List.replicate bins 0) (List.length_replicate bins 0)]
  simp [List.getD_eq_getElem?_getD]

theorem sum_set_getD_succ (l : List ℕ) (i : ℕ) (hi : i < l.length) :
    (l.set i (l.getD i 0 + 1)).sum = l.sum + 1 := by
  induction l generalizing i with
  | nil => simp at hi
  | cons a rest ih =>
    cases i with
    | zero =>
      simp only [List.set_cons_zero, List.sum_cons, List.getD_cons_zero]
      omega
    | succ i' =>
      simp only [List.set_cons_succ, List.sum_cons, List.getD_cons_succ]
      have := ih i' (Nat.lt_of_succ_lt_succ hi)
      omega

theorem histCountsSpec_sum (binEdges : List ℚ) (bins : ℕ)
    (values : List ℚ) :
    (histCountsSpec binEdges bins values).sum =
      values.countP (fun v => (firstBin binEdges bins v).isSome) := by
  unfold histCountsSpec
  have key : ∀ (vs : List ℚ) (init : List ℕ), init.length = bins →
      (vs.foldl
        (fun counts v =>
          match firstBin binEdges bins v with
          | some i => counts.set i (counts.getD i 0 + 1)
          | none => counts)
        init).sum =
        init.sum + vs.countP (fun v => (firstBin binEdges bins v).isSome) := by
    intro vs
    induction vs with
    | nil =>
      intro init _
      simp [List.countP_nil]
    | cons v vs ih =>
      intro init hlen
      rw [List.foldl_cons, List.countP_cons]
      cases hfb : firstBin binEdges bins v with
      | none =>
        rw [ih init hlen]
        simp
      | some j =>
        have hj : j < init.length := by
          rw [hlen]
          exact firstBin_lt binEdges bins v j hfb
        rw [ih _ (by rw [List.length_set]; exact hlen)]
        rw [sum_set_getD_succ init j hj]
        simp only [Option.isSome_some, if_true]
        omega
  rw [key values (List.replicate bins 0) (List.length_replicate bins 0)]
  simp

/-! ## The output pass -/

theorem mapM_ok_of_all_ok {α β : Type} (l : List α) (f : α → Except String β)
    (g : α → β) (h : ∀ a ∈ l, f a = .ok (g a)) :
    l.mapM f = .ok (l.map g) := by
  induction l with
  | nil => rfl
  | cons a rest ih =>
    rw [List.mapM_cons, h a (List.mem_cons_self a rest),
      ih (fun x hx => h x (List.mem_cons_of_mem a hx))]
    rfl

theorem buildBins_eq (binEdges : List ℚ) (counts : List ℕ) (bins : ℕ)
    (hsafe : bins + 1 ≤ binEdges.length) (hlen : bins ≤ counts.length) :
    buildBins binEdges counts bins =
      .ok ((List.range bins).map fun i =>
        HistBin.mk (binEdges.getD i 0) (binEdges.getD (i + 1) 0)
          (counts.getD i 0)) := by
  unfold buildBins
  apply mapM_ok_of_all_ok
  intro i hi
  have hibins : i < bins := List.mem_range.mp hi
  have hi1 : i < binEdges.length := lt_of_lt_of_le hibins (Nat.le_of_succ_le hsafe)
  have hi2 : i + 1 < binEdges.length := lt_of_lt_of_le (Nat.succ_lt_succ hibins) hsafe
  have hic : i < counts.length := lt_of_lt_of_le hibins hlen
  have hgi : binEdges.get? i = some (binEdges.getD i 0) := by
    rw [List.get?_eq_getElem?, List.getD_eq_getElem _ _ hi1,
      List.getElem?_eq_getElem hi1]
  have hgi1 : binEdges.get? (i + 1) = some (binEdges.getD (i + 1) 0) := by
    rw [List.get?_eq_getElem?, List.getD_eq_getElem _ _ hi2,
      List.getElem?_eq_getElem hi2]
  have hgc : counts.get? i = some (counts.getD i 0) := by
    rw [List.get?_eq_getElem?, List.getD_eq_getElem _ _ hic,
      List.getElem?_eq_getElem hic]
  rw [hgi, hgi1, hgc]

theorem range_map_getD (l : List ℕ) :
    (List.range l.length).map (fun i => l.getD i 0) = l := by
  induction l with
  | nil => rfl
  | cons a rest ih =>
    have step : (List.range (rest.length + 1)).map
          (fun i => (a :: rest).getD i 0)
        = a :: (List.range rest.length).map (fun i => rest.getD i 0) := by
      rw [List.range_succ_eq_map, List.map_cons, List.map_map]
      simp [Function.comp, List.getD_cons_succ]
    rw [List.length_cons, step, ih]

/-! ## Coverage: a value between the outer edges lands in some bin -/

theorem binContainsB_cons (a : ℚ) (L : List ℚ) (bins i : ℕ) (v : ℚ)
    (hb : 1 ≤ bins) :
    binContainsB (a :: L) (bins + 1) (i + 1) v = binContainsB L bins i v := by
  unfold binContainsB
  have hiff : i + 1 = bins + 1 - 1 ↔ i = bins - 1 := by omega
  by_cases hlast : i = bins - 1
  · rw [if_pos (hiff.mpr hlast), if_pos hlast, List.getD_cons_succ,
      List.getD_cons_succ]
  · rw [if_neg (fun h => hlast (hiff.mp h)), if_neg hlast,
      List.getD_cons_succ, List.getD_cons_succ]

theorem exists_bin (v : ℚ) :
    ∀ (es : List ℚ) (a : ℚ), List.Chain (· < ·) a es → es ≠ [] →
      a ≤ v → v ≤ (a :: es).getLast (List.cons_ne_nil a es) →
      ∃ i < es.length, binContainsB (a :: es) es.length i v = true := by
  intro es
  induction es with
  | nil => intro a _ hne; exact absurd rfl hne
  | cons b tail ih =>
    intro a hchain _ hav hlast
    cases tail with
    | nil =>
      refine ⟨0, Nat.zero_lt_one, ?_⟩
      unfold binContainsB
      rw [if_pos (by simp)]
      apply decide_eq_true
      refine ⟨by simpa using hav, ?_⟩
      simpa [List.getLast] using hlast
    | cons c rest =>
      rcases List.chain_cons.mp hchain with ⟨hab, hchain'⟩
      by_cases hvb : v < b
      · refine ⟨0, Nat.succ_pos _, ?_⟩
        unfold binContainsB
        rw [if_neg (by simp)]
        apply decide_eq_true
        exact ⟨by simpa using hav, by simpa using hvb⟩
      · push_neg at hvb
        have hlast' : v ≤ (b :: c :: rest).getLast
            (List.cons_ne_nil b (c :: rest)) := by
          rwa [List.getLast_cons (List.cons_ne_nil b (c :: rest))] at hlast
        obtain ⟨i, hi, hc⟩ := ih b hchain' (List.cons_ne_nil c rest) hvb hlast'
        refine ⟨i + 1, Nat.succ_lt_succ hi, ?_⟩
        show binContainsB (a :: b :: c :: rest) ((c :: rest).length + 1)
          (i + 1) v = true
        rw [binContainsB_cons a (b :: c :: rest) (c :: rest).length i v
          (Nat.succ_le_of_lt (List.length_pos.mpr (List.cons_ne_nil c rest)))]
        exact hc

/-! ## Bounds from Python min / max -/

theorem foldl_min_le_init (vs : List ℚ) (a : ℚ) : vs.foldl min a ≤ a := by
  induction vs generalizing a with
  | nil => exact le_refl a
  | cons v' vs ih =>
    rw [List.foldl_cons]
    exact le_trans (ih (min a v')) (min_le_left a v')

theorem foldl_min_le_mem (vs : List ℚ) (a v : ℚ) (hv : v ∈ vs) :
    vs.foldl min a ≤ v := by
  induction vs generalizing a with
  | nil => simp at hv
  | cons v' vs ih =>
    rw [List.foldl_cons]
    rcases List.mem_cons.mp hv with h | h
    · subst h
      exact le_trans (foldl_min_le_init vs (min a v)) (min_le_right a v)
    · exact ih (min a v') h

theorem init_le_foldl_max (vs : List ℚ) (a : ℚ) : a ≤ vs.foldl max a := by
  induction vs generalizing a with
  | nil => exact le_refl a
  | cons v' vs ih =>
    rw [List.foldl_cons]
    exact le_trans (le_max_left a v') (ih (max a v'))

theorem mem_le_foldl_max (vs : List ℚ) (a v : ℚ) (hv : v ∈ vs) :
    v ≤ vs.foldl max a := by
  induction vs generalizing a with
  | nil => simp at hv
  | cons v' vs ih =>
    rw [List.foldl_cons]
    rcases List.mem_cons.mp hv with h | h
    · subst h
      exact le_trans (le_max_right a v) (init_le_foldl_max vs (max a v))
    · exact ih (max a v') h

theorem pyMin_le (values : List ℚ) (mn : ℚ) (h : pyMin values = .ok mn) :
    ∀ v ∈ values, mn ≤ v := by
  cases values with
  | nil => simp [pyMin] at h
  | cons v0 vs =>
    intro v hv
    have hmn : mn = vs.foldl min v0 := by
      simpa [pyMin] using h.symm
    subst hmn
    rcases List.mem_cons.mp hv with h' | h'
    · subst h'
      exact foldl_min_le_init vs v
    · exact foldl_min_le_mem vs v0 v h'

theorem le_pyMax (values : List ℚ) (mx : ℚ) (h : pyMax values = .ok mx) :
    ∀ v ∈ values, v ≤ mx := by
  cases values with
  | nil => simp [pyMax] at h
  | cons v0 vs =>
    intro v hv
    have hmx : mx = vs.foldl max v0 := by
      simpa [pyMax] using h.symm
    subst hmx
    rcases List.mem_cons.mp hv with h' | h'
    · subst h'
      exact init_le_foldl_max vs v
    · exact mem_le_foldl_max vs v0 v h'

/-! ## Facts about the automatically generated edges -/

theorem autoEdges_length (mn mx : ℚ) (n : ℤ) :
    (autoEdges mn mx n).length = (n + 1).toNat := by
  unfold autoEdges
  rw [List.length_map, List.length_range]

theorem autoEdges_getD (mn mx : ℚ) (n : ℤ) (i : ℕ)
    (hi : i < (n + 1).toNat) :
    (autoEdges mn mx n).getD i 0 = mn + (i : ℚ) * ((mx - mn) / (n : ℚ)) := by
  unfold autoEdges
  have hlen : i < ((List.range (n + 1).toNat).map
      (fun i : ℕ => mn + (i : ℚ) * ((mx - mn) / (n : ℚ)))).length := by
    rw [List.length_map, List.length_range]
    exact hi
  rw [List.getD_eq_getElem _ _ hlen, List.getElem_map, List.getElem_range]

theorem autoEdges_pairwise (mn mx : ℚ) (n : ℤ) (hmn : mn < mx)
    (hn : 1 ≤ n) :
    List.Pairwise (· < ·) (autoEdges mn mx n) := by
  unfold autoEdges
  have hw : 0 < (mx - mn) / (n : ℚ) := by
    apply div_pos
    · exact sub_pos.mpr hmn
    · exact_mod_cast hn
  apply List.Pairwise.map
  · intro a b hab
    have : (a : ℚ) < (b : ℚ) := by exact_mod_cast hab
    have := mul_lt_mul_of_pos_right this hw
    linarith
  · exact List.pairwise_lt_range _

theorem ok_bind {α β : Type} (a : α) (f : α → Except String β) :
    (Except.ok a : Except String α) >>= f = f a := rfl

theorem histData_count_unfold (values : List ℚ) (n : ℤ) (mn mx : ℚ)
    (hmn : pyMin values = .ok mn) (hmx : pyMax values = .ok mx)
    (hne : ¬ mn = mx) (hn0 : ¬ n = 0) :
    histData values (.count n) =
      histCounts (autoEdges mn mx n) n.toNat values >>= fun counts =>
        buildBins (autoEdges mn mx n) counts n.toNat := by
  unfold histData
  simp only []
  rw [show (do
      let mn ← pyMin values
      let mx ← pyMax values
      if mn = mx then
        pure ([mn - 1/2, mx + 1/2], n)
      else if n = 0 then
        Except.error "ZeroDivisionError: division by zero"
      else
        pure (autoEdges mn mx n, n) :
      Except String (List ℚ × ℤ)) = pure (autoEdges mn mx n, n) from by
    rw [hmn, ok_bind, hmx, ok_bind, if_neg hne, if_neg hn0]]
  rfl

theorem autoEdges_covers (n : ℤ) (mn mx : ℚ) (hn : 1 ≤ n) (hlt : mn < mx)
    (v : ℚ) (h1 : mn ≤ v) (h2 : v ≤ mx) :
    (firstBin (autoEdges mn mx n) n.toNat v).isSome = true := by
  have hTo : (n + 1).toNat = n.toNat + 1 := by omega
  have hlen : (autoEdges mn mx n).length = n.toNat + 1 := by
    rw [autoEdges_length, hTo]
  have hlenpos : (autoEdges mn mx n) ≠ [] := by
    intro h
    rw [h] at hlen
    simp at hlen
  obtain ⟨e0, es, hE⟩ := List.exists_cons_of_ne_nil hlenpos
  have heslen : es.length = n.toNat := by
    have := hlen
    rw [hE, List.length_cons] at this
    omega
  have hesne : es ≠ [] := by
    intro h
    rw [h] at heslen
    simp at heslen
    omega
  have hpair : List.Pairwise (· < ·) (e0 :: es) := by
    rw [← hE]
    exact autoEdges_pairwise mn mx n hlt hn
  have hchain : List.Chain (· < ·) e0 es := List.Pairwise.chain' hpair
  have he0 : e0 = mn := by
    have h0 : (autoEdges mn mx n).getD 0 0 = mn := by
      rw [autoEdges_getD mn mx n 0 (by omega)]
      push_cast
      ring
    rw [hE, List.getD_cons_zero] at h0
    exact h0
  have hl : (autoEdges mn mx n).getD n.toNat 0 = mx := by
    rw [autoEdges_getD mn mx n n.toNat (by omega)]
    have hcast : ((n.toNat : ℕ) : ℚ) = (n : ℚ) := by
      have := Int.toNat_of_nonneg (le_trans Int.one_nonneg hn)
      exact_mod_cast congrArg (fun z : ℤ => (z : ℚ)) this
    rw [hcast]
    have hn0 : (n : ℚ) ≠ 0 := by
      have : (0 : ℚ) < (n : ℚ) := by
        exact_mod_cast lt_of_lt_of_le Int.one_pos hn
      exact ne_of_gt this
    field_simp
  have hlen' : (e0 :: es).length = n.toNat + 1 := by
    rw [← hE]
    exact hlen
  have hlast : (e0 :: es).getLast (List.cons_ne_nil e0 es) = mx := by
    have hgd : (e0 :: es).getD n.toNat 0 = mx := by
      rw [← hE]
      exact hl
    rw [List.getLast_eq_getElem]
    rw [← List.getD_eq_getElem (e0 :: es) 0 (by omega)]
    have hidx : (e0 :: es).length - 1 = n.toNat := by omega
    rw [hidx]
    exact hgd
  unfold firstBin
  rw [List.find?_isSome]
  obtain ⟨i, hi, hc⟩ := exists_bin v es e0 hchain hesne
    (by rw [he0]; exact h1) (by rw [hlast]; exact h2)
  rw [heslen] at hi
  rw [heslen, ← hE] at hc
  exact ⟨i, List.mem_range.mpr hi, hc⟩

/-! ## Claim theorems -/

/-- C7: for every non-empty list of values with `min < max` (existence of
`pyMin`/`pyMax` results encodes non-emptiness) and every integer bin count
`n ≥ 1`, the automatically generated edges satisfy `edges[0] = min`,
`edges[n] = max` and are strictly increasing, and `hist`'s binning counts
every input value in exactly one bin: the per-bin counts sum to the number
of values, each value having a (unique, first) matching bin. -/
theorem hist_auto_edges_spec (values : List ℚ) (n : ℤ) (mn mx : ℚ)
    (hn : 1 ≤ n) (hmn : pyMin values = .ok mn) (hmx : pyMax values = .ok mx)
    (hlt : mn < mx) :
    (autoEdges mn mx n).getD 0 0 = mn ∧
    (autoEdges mn mx n).getD n.toNat 0 = mx ∧
    (autoEdges mn mx n).length = n.toNat + 1 ∧
    List.Pairwise (· < ·) (autoEdges mn mx n) ∧
    ∃ bs, histData values (.count n) = .ok bs ∧
      bs.length = n.toNat ∧
      (bs.map HistBin.count).sum = values.length ∧
      ∀ v ∈ values, (firstBin (autoEdges mn mx n) n.toNat v).isSome = true := by
  have hne : ¬ mn = mx := ne_of_lt hlt
  have hn0 : ¬ n = 0 := by omega
  have hTo : (n + 1).toNat = n.toNat + 1 := by omega
  have hlen : (autoEdges mn mx n).length = n.toNat + 1 := by
    rw [autoEdges_length, hTo]
  have hsafe : n.toNat + 1 ≤ (autoEdges mn mx n).length := le_of_eq hlen.symm
  have hcover : ∀ v ∈ values,
      (firstBin (autoEdges mn mx n) n.toNat v).isSome = true := by
    intro v hv
    exact autoEdges_covers n mn mx hn hlt v
      (pyMin_le values mn hmn v hv) (le_pyMax values mx hmx v hv)
  refine ⟨?_, ?_, hlen, autoEdges_pairwise mn mx n hlt hn, ?_⟩
  · rw [autoEdges_getD mn mx n 0 (by omega)]
    push_cast
    ring
  · rw [autoEdges_getD mn mx n n.toNat (by omega)]
    have hcast : ((n.toNat : ℕ) : ℚ) = (n : ℚ) := by
      have := Int.toNat_of_nonneg (le_trans Int.one_nonneg hn)
      exact_mod_cast congrArg (fun z : ℤ => (z : ℚ)) this
    rw [hcast]
    have hq0 : (n : ℚ) ≠ 0 := by
      have : (0 : ℚ) < (n : ℚ) := by
        exact_mod_cast lt_of_lt_of_le Int.one_pos hn
      exact ne_of_gt this
    field_simp
  · have hclen : (histCountsSpec (autoEdges mn mx n) n.toNat values).length
        = n.toNat := histCountsSpec_length _ _ _
    rw [histData_count_unfold values n mn mx hmn hmx hne hn0,
      histCounts_eq _ _ _ hsafe, ok_bind,
      buildBins_eq _ _ _ hsafe (le_of_eq hclen.symm)]
    refine ⟨_, rfl, ?_, ?_, hcover⟩
    · rw [List.length_map, List.length_range]
    · rw [List.map_map]
      have hmap : (HistBin.count ∘ fun i =>
          HistBin.mk ((autoEdges mn mx n).getD i 0)
            ((autoEdges mn mx n).getD (i + 1) 0)
            ((histCountsSpec (autoEdges mn mx n) n.toNat values).getD i 0)) =
          fun i => (histCountsSpec (autoEdges mn mx n) n.toNat values).getD i 0 := by
        funext i
        rfl
      rw [hmap]
      set counts := histCountsSpec (autoEdges mn mx n) n.toNat values
        with hcounts
      rw [← hclen, range_map_getD, hcounts, histCountsSpec_sum]
      rw [List.countP_eq_length]
      exact hcover

/-- Witness for C7: the theorem applied at `values = [0, 1, 2]`, `n = 2`. -/
theorem hist_auto_edges_spec_witness :
    (autoEdges 0 2 2).getD 0 0 = 0 ∧
    (autoEdges 0 2 2).getD (2 : ℤ).toNat 0 = 2 ∧
    (autoEdges 0 2 2).length = (2 : ℤ).toNat + 1 ∧
    List.Pairwise (· < ·) (autoEdges 0 2 2) ∧
    ∃ bs, histData [0, 1, 2] (.count 2) = .ok bs ∧
      bs.length = (2 : ℤ).toNat ∧
      (bs.map HistBin.count).sum = ([0, 1, 2] : List ℚ).length ∧
      ∀ v ∈ ([0, 1, 2] : List ℚ),
        (firstBin (autoEdges 0 2 2) (2 : ℤ).toNat v).isSome = true :=
  hist_auto_edges_spec [0, 1, 2] 2 0 2 (by decide) (by rfl) (by rfl)
    (by norm_num)

/-- C6: with `bins = len(edges) - 1` (as holds for user-supplied edges and
for automatically generated ones when `min < max`), `hist`'s counting pass
never errors and assigns each value to the first bin containing it, each
bin being half-open `[start, end)` except the last, which is closed: bin
`i`'s count is exactly the number of values whose first matching bin is
`i`, the matching bin is characterized as the first one whose range
contains the value, and a value contained in no bin is assigned to none
(so it is silently dropped, contributing to no count). -/
theorem hist_first_match_binning (binEdges values : List ℚ) (v : ℚ) (i : ℕ)
    (hi : i < binEdges.length - 1) :
    (∃ counts, histCounts binEdges (binEdges.length - 1) values =
        .ok counts ∧
      counts.getD i 0 = (values.filter
        (fun u => firstBin binEdges (binEdges.length - 1) u ==
          some i)).length) ∧
    (firstBin binEdges (binEdges.length - 1) v = some i ↔
      binContainsB binEdges (binEdges.length - 1) i v = true ∧
      ∀ j < i, binContainsB binEdges (binEdges.length - 1) j v = false) ∧
    ((∀ j < binEdges.length - 1,
        binContainsB binEdges (binEdges.length - 1) j v = false) →
      firstBin binEdges (binEdges.length - 1) v = none) := by
  have hsafe : (binEdges.length - 1) + 1 ≤ binEdges.length := by omega
  refine ⟨⟨histCountsSpec binEdges (binEdges.length - 1) values,
    histCounts_eq _ _ _ hsafe, ?_⟩, ?_, ?_⟩
  · rw [histCountsSpec_getD, List.countP_eq_length_filter]
  · rw [firstBin_eq_some_iff]
    constructor
    · rintro ⟨_, h2, h3⟩
      exact ⟨h2, h3⟩
    · rintro ⟨h2, h3⟩
      exact ⟨hi, h2, h3⟩
  · exact (firstBin_eq_none_iff _ _ _).mpr

/-- Witness for C6 at `edges = [0, 1, 2]`,
`values = [0, 1/2, 1, 2, 5]`, `v = 1`, `i = 1`. -/
theorem hist_first_match_binning_witness :
    (∃ counts, histCounts [0, 1, 2]
        (([0, 1, 2] : List ℚ).length - 1) [0, 1/2, 1, 2, 5] =
        .ok counts ∧
      counts.getD 1 0 = (([0, 1/2, 1, 2, 5] : List ℚ).filter
        (fun u => firstBin [0, 1, 2] (([0, 1, 2] : List ℚ).length - 1) u ==
          some 1)).length) ∧
    (firstBin [0, 1, 2] (([0, 1, 2] : List ℚ).length - 1) 1 = some 1 ↔
      binContainsB [0, 1, 2] (([0, 1, 2] : List ℚ).length - 1) 1 1 = true ∧
      ∀ j < 1, binContainsB [0, 1, 2]
        (([0, 1, 2] : List ℚ).length - 1) j 1 = false) ∧
    ((∀ j < ([0, 1, 2] : List ℚ).length - 1,
        binContainsB [0, 1, 2] (([0, 1, 2] : List ℚ).length - 1) j 1 =
          false) →
      firstBin [0, 1, 2] (([0, 1, 2] : List ℚ).length - 1) 1 = none) :=
  hist_first_match_binning [0, 1, 2] [0, 1/2, 1, 2, 5] 1 1 (by norm_num)

/-- C2 (code bug): for an all-equal value list the degenerate branch makes
only the two edges `[v - 0.5, v + 0.5]` but leaves the bin count
unchanged, so for any requested bin count `n ≥ 2` the output pass reads
`bin_edges[2]` and raises `IndexError` instead of producing the single
`±0.5` bin; only `n = 1` yields the bin the claim (and the spec's §4.1)
describes. -/
theorem hist_all_equal_indexerror :
    histData [5, 5] (BinsArg.count 2) =
      .error "IndexError: list index out of range" ∧
    histData [5, 5] (BinsArg.count 1) =
      .ok [HistBin.mk (9/2) (11/2) 2] := by
  constructor <;>
    norm_num [histData, pyMin, pyMax, histCounts, findBin, findBinGo,
      buildBins, ok_bind, List.range_succ, List.foldlM, List.mapM,
      List.mapM.loop]

/-- C5: overlaying two line charts (or two scatter charts) that both carry
data takes the fast path: the result keeps the kind and its data is the
first operand's series followed by the second operand's series — exactly
`m + n` series in original relative order. -/
theorem overlay_same_kind_series_concat (c1 c2 : Chart)
    (s1 s2 : List Series) :
    (c1.data = some (.line s1) → c2.data = some (.line s2) →
      ∃ c, overlayCharts c1 c2 = .merged c ∧
        c.data = some (.line (s1 ++ s2)) ∧ c.ctype = some "line" ∧
        (s1 ++ s2).length = s1.length + s2.length) ∧
    (c1.data = some (.scatter s1) → c2.data = some (.scatter s2) →
      ∃ c, overlayCharts c1 c2 = .merged c ∧
        c.data = some (.scatter (s1 ++ s2)) ∧ c.ctype = some "scatter" ∧
        (s1 ++ s2).length = s1.length + s2.length) := by
  constructor
  · intro h1 h2
    have hov : overlayCharts c1 c2 = .merged
        ⟨some (.line (s1 ++ s2)),
          mergeOverlayOptions c1.options c2.options (.line s1) (.line s2)
            (max c1.width c2.width) (max c1.height c2.height),
          max c1.width c2.width, max c1.height c2.height⟩ := by
      unfold overlayCharts
      rw [h1, h2]
    exact ⟨_, hov, rfl, rfl, List.length_append s1 s2⟩
  · intro h1 h2
    have hov : overlayCharts c1 c2 = .merged
        ⟨some (.scatter (s1 ++ s2)),
          mergeOverlayOptions c1.options c2.options (.scatter s1)
            (.scatter s2)
            (max c1.width c2.width) (max c1.height c2.height),
          max c1.width c2.width, max c1.height c2.height⟩ := by
      unfold overlayCharts
      rw [h1, h2]
    exact ⟨_, hov, rfl, rfl, List.length_append s1 s2⟩

/-- Witness for C5: one concrete line-chart pair and one concrete
scatter-chart pair. -/
theorem overlay_same_kind_series_concat_witness :
    (∃ c, overlayCharts
        ⟨some (.line [Series.mk "a" [Point.mk 0 1 none none]]), [], 320, 240⟩
        ⟨some (.line [Series.mk "b" [Point.mk 1 2 none none],
          Series.mk "c" []]), [], 320, 240⟩ = .merged c ∧
      c.data = some (.line ([Series.mk "a" [Point.mk 0 1 none none]] ++
        [Series.mk "b" [Point.mk 1 2 none none], Series.mk "c" []])) ∧
      c.ctype = some "line" ∧
      ([Series.mk "a" [Point.mk 0 1 none none]] ++
        [Series.mk "b" [Point.mk 1 2 none none], Series.mk "c" []]).length =
        [Series.mk "a" [Point.mk 0 1 none none]].length +
        [Series.mk "b" [Point.mk 1 2 none none], Series.mk "c" []].length) ∧
    (∃ c, overlayCharts
        ⟨some (.scatter [Series.mk "s" []]), [], 320, 240⟩
        ⟨some (.scatter [Series.mk "t" []]), [], 320, 240⟩ = .merged c ∧
      c.data = some (.scatter ([Series.mk "s" []] ++ [Series.mk "t" []])) ∧
      c.ctype = some "scatter" ∧
      ([Series.mk "s" []] ++ [Series.mk "t" []]).length =
        [Series.mk "s" []].length + [Series.mk "t" []].length) :=
  ⟨(overlay_same_kind_series_concat
      ⟨some (.line [Series.mk "a" [Point.mk 0 1 none none]]), [], 320, 240⟩
      ⟨some (.line [Series.mk "b" [Point.mk 1 2 none none],
        Series.mk "c" []]), [], 320, 240⟩ _ _).1 rfl rfl,
   (overlay_same_kind_series_concat
      ⟨some (.scatter [Series.mk "s" []]), [], 320, 240⟩
      ⟨some (.scatter [Series.mk "t" []]), [], 320, 240⟩ _ _).2 rfl rfl⟩

/-- C8: overlaying a data-carrying bar chart with `k` categories and a
data-carrying line chart with `n` series yields a `composite` chart with
exactly `1 + n` series whose first series comes from the bar chart: it is
tagged renderType `"bar"` and its i-th point is
`{x: i, y: value_i, label: label_i}` (the bar's ordinal position, value and
category label). -/
theorem overlay_bar_line_composite (c1 c2 : Chart) (items : List BarDatum)
    (ss : List Series) (h1 : c1.data = some (.bar items))
    (h2 : c2.data = some (.line ss)) :
    ∃ c us, overlayCharts c1 c2 = .merged c ∧
      c.data = some (.composite us) ∧ c.ctype = some "composite" ∧
      us.length = 1 + ss.length ∧
      us.head? = some (USeries.mk (c1.options.getStrD "title" "Bar Data")
        "bar" (.pts (items.mapIdx fun i it =>
          { x := (i : ℚ), y := it.value, label := some it.label }))) := by
  have hov : overlayCharts c1 c2 = .merged
      ⟨some (.composite (convertToUnified (.bar items) c1.options ++
        convertToUnified (.line ss) c2.options)),
        mergeOverlayOptions c1.options c2.options (.bar items) (.line ss)
          (max c1.width c2.width) (max c1.height c2.height),
        max c1.width c2.width, max c1.height c2.height⟩ := by
    unfold overlayCharts
    rw [h1, h2]
  refine ⟨_, _, hov, rfl, rfl, ?_, ?_⟩
  · rw [List.length_append]
    show 1 + (ss.map _).length = 1 + ss.length
    rw [List.length_map]
  · rfl

/-- Witness for C8: a two-category bar chart overlaid with a one-series
line chart. -/
theorem overlay_bar_line_composite_witness :
    ∃ c us, overlayCharts
        ⟨some (.bar [BarDatum.mk "a" 1, BarDatum.mk "b" 2]), [], 320, 240⟩
        ⟨some (.line [Series.mk "s" [Point.mk 0 1 none none]]),
          [("title", OptVal.str "L")], 400, 200⟩ = .merged c ∧
      c.data = some (.composite us) ∧ c.ctype = some "composite" ∧
      us.length = 1 +
        [Series.mk "s" [Point.mk 0 1 none none]].length ∧
      us.head? = some (USeries.mk
        (Options.getStrD [] "title" "Bar Data") "bar"
        (.pts (([BarDatum.mk "a" 1, BarDatum.mk "b" 2]).mapIdx fun i it =>
          { x := (i : ℚ), y := it.value, label := some it.label }))) :=
  overlay_bar_line_composite
    ⟨some (.bar [BarDatum.mk "a" 1, BarDatum.mk "b" 2]), [], 320, 240⟩
    ⟨some (.line [Series.mk "s" [Point.mk 0 1 none none]]),
      [("title", OptVal.str "L")], 400, 200⟩
    [BarDatum.mk "a" 1, BarDatum.mk "b" 2]
    [Series.mk "s" [Point.mk 0 1 none none]] rfl rfl

/-- Counterexample to C1: overlaying two data-carrying bar charts does
*not* raise — `_overlay_charts` has no raise statement at all (no
`CompositionError` exists in `bridge.py`); it produces a merged chart of
kind `composite`, and likewise for two histogram charts. -/
theorem overlay_bar_bar_counterexample :
    (overlayCharts
      ⟨some (.bar [BarDatum.mk "a" 1]), [], 320, 240⟩
      ⟨some (.bar [BarDatum.mk "b" 2]), [], 320, 240⟩).isMerged = true ∧
    ((overlayCharts
      ⟨some (.bar [BarDatum.mk "a" 1]), [], 320, 240⟩
      ⟨some (.bar [BarDatum.mk "b" 2]), [], 320, 240⟩).chart?.map
        Chart.ctype) = some (some "composite") ∧
    (overlayCharts
      ⟨some (.hist [HistBin.mk 0 1 3]), [], 320, 240⟩
      ⟨some (.hist [HistBin.mk 0 1 4]), [], 320, 240⟩).isMerged = true ∧
    ((overlayCharts
      ⟨some (.hist [HistBin.mk 0 1 3]), [], 320, 240⟩
      ⟨some (.hist [HistBin.mk 0 1 4]), [], 320, 240⟩).chart?.map
        Chart.ctype) = some (some "composite") :=
  ⟨rfl, rfl, rfl, rfl⟩

/-- C1 amended: overlaying two data-carrying bar charts (or two
data-carrying histogram charts) raises nothing; it merges them into a
`composite` chart holding both operands' unified series — one series per
operand, so exactly two series. -/
theorem overlay_same_kind_bar_hist_composite (c1 c2 : Chart)
    (h : (∃ i1 i2, c1.data = some (.bar i1) ∧ c2.data = some (.bar i2)) ∨
      (∃ b1 b2, c1.data = some (.hist b1) ∧ c2.data = some (.hist b2))) :
    ∃ c us, overlayCharts c1 c2 = .merged c ∧
      c.data = some (.composite us) ∧ c.ctype = some "composite" ∧
      us.length = 2 := by
  rcases h with ⟨i1, i2, h1, h2⟩ | ⟨b1, b2, h1, h2⟩
  · have hov : overlayCharts c1 c2 = .merged
        ⟨some (.composite (convertToUnified (.bar i1) c1.options ++
          convertToUnified (.bar i2) c2.options)),
          mergeOverlayOptions c1.options c2.options (.bar i1) (.bar i2)
            (max c1.width c2.width) (max c1.height c2.height),
          max c1.width c2.width, max c1.height c2.height⟩ := by
      unfold overlayCharts
      rw [h1, h2]
    exact ⟨_, _, hov, rfl, rfl, rfl⟩
  · have hov : overlayCharts c1 c2 = .merged
        ⟨some (.composite (convertToUnified (.hist b1) c1.options ++
          convertToUnified (.hist b2) c2.options)),
          mergeOverlayOptions c1.options c2.options (.hist b1) (.hist b2)
            (max c1.width c2.width) (max c1.height c2.height),
          max c1.width c2.width, max c1.height c2.height⟩ := by
      unfold overlayCharts
      rw [h1, h2]
    exact ⟨_, _, hov, rfl, rfl, rfl⟩

/-- Witness for the amended C1 at two concrete bar charts. -/
theorem overlay_same_kind_bar_hist_composite_witness :
    ∃ c us, overlayCharts
        ⟨some (.bar [BarDatum.mk "a" 1]), [], 320, 240⟩
        ⟨some (.bar [BarDatum.mk "b" 2]), [], 320, 240⟩ = .merged c ∧
      c.data = some (.composite us) ∧ c.ctype = some "composite" ∧
      us.length = 2 :=
  overlay_same_kind_bar_hist_composite
    ⟨some (.bar [BarDatum.mk "a" 1]), [], 320, 240⟩
    ⟨some (.bar [BarDatum.mk "b" 2]), [], 320, 240⟩
    (Or.inl ⟨[BarDatum.mk "a" 1], [BarDatum.mk "b" 2], rfl, rfl⟩)

/-- Counterexample to C3: overlaying two charts that carry only a rendered
SVG and no data does *not* raise a `CompositionError`; `_overlay_charts`
falls back to `_compose_charts(other, 'stack')`, the SVG-level layer
composition. -/
theorem overlay_no_data_counterexample :
    overlayCharts ⟨none, [], 320, 240⟩ ⟨none, [], 100, 100⟩ =
      .stackFallback := rfl

/-- C3 amended: when either operand of `*` carries no structured data, the
overlay falls back to SVG-level stack composition (delegated to the
external engine) instead of raising; no error path exists. -/
theorem overlay_no_data_stack_fallback (c1 c2 : Chart)
    (h : c1.data = none ∨ c2.data = none) :
    overlayCharts c1 c2 = .stackFallback := by
  unfold overlayCharts
  rcases h with h | h
  · rw [h]
  · rw [h]
    cases c1.data <;> rfl

/-- Witness for the amended C3 at two concrete data-less charts. -/
theorem overlay_no_data_stack_fallback_witness :
    overlayCharts ⟨none, [], 320, 240⟩ ⟨none, [("title", OptVal.str "t")],
      100, 100⟩ = .stackFallback :=
  overlay_no_data_stack_fallback _ _ (Or.inl rfl)

/-- C10: in a data-carrying overlay, every options key other than
`"title"`, `"colors"`, `"width"` and `"height"` keeps the first operand's
value: the merged options start from a copy of the first chart's options
and only those four keys are ever written, so the second operand's other
settings are discarded. -/
theorem overlay_options_from_first_operand (c1 c2 : Chart)
    (d1 d2 : ChartData) (h1 : c1.data = some d1) (h2 : c2.data = some d2)
    (k : String) (hk1 : k ≠ "title") (hk2 : k ≠ "colors")
    (hk3 : k ≠ "width") (hk4 : k ≠ "height") :
    ∃ c, overlayCharts c1 c2 = .merged c ∧
      c.options.get k = c1.options.get k := by
  unfold overlayCharts
  rw [h1, h2]
  refine ⟨_, rfl, ?_⟩
  unfold mergeOverlayOptions
  rw [Options.get_set_ne _ _ _ _ hk4, Options.get_set_ne _ _ _ _ hk3,
    Options.get_set_ne _ _ _ _ hk2]
  split_ifs with hA hB
  · rw [Options.get_set_ne _ _ _ _ hk1]
  · cases c2.options.get "title" with
    | none => rfl
    | some v => rw [Options.get_set_ne _ _ _ _ hk1]
  · rfl

/-- Witness for C10: the first operand's `xLabel` survives, at concrete
charts where the second operand sets a different `xLabel`. -/
theorem overlay_options_from_first_operand_witness :
    ∃ c, overlayCharts
        ⟨some (.bar [BarDatum.mk "a" 1]),
          [("xLabel", OptVal.str "X"), ("title", OptVal.str "A")], 320, 240⟩
        ⟨some (.line [Series.mk "s" []]),
          [("xLabel", OptVal.str "Z")], 320, 240⟩ = .merged c ∧
      c.options.get "xLabel" =
        Options.get [("xLabel", OptVal.str "X"), ("title", OptVal.str "A")]
          "xLabel" :=
  overlay_options_from_first_operand
    ⟨some (.bar [BarDatum.mk "a" 1]),
      [("xLabel", OptVal.str "X"), ("title", OptVal.str "A")], 320, 240⟩
    ⟨some (.line [Series.mk "s" []]),
      [("xLabel", OptVal.str "Z")], 320, 240⟩
    (.bar [BarDatum.mk "a" 1]) (.line [Series.mk "s" []]) rfl rfl
    "xLabel" (by decide) (by decide) (by decide) (by decide)

/-- The color-merge rule `_overlay_charts` implements, as a standalone
formula: each side contributes its explicit `colors` list when non-empty,
otherwise one default-palette color per *element of its data list*
(`len(self.data)`, or 1 when that list is falsy — `ChartData.seriesCount`),
the second side's automatic colors starting at the palette index equal to
the number of colors already in the merged list. -/
def mergedColorsSpec (colors1 colors2 : List String) (n1 n2 : ℕ) :
    List String :=
  let part1 := if colors1.isEmpty then defaultColors.take n1 else colors1
  let part2 := if colors2.isEmpty then
      (defaultColors.drop part1.length).take n2
    else colors2
  part1 ++ part2

/-- The colors list claim C9 predicts: one color per *series* of each
operand, where the series an operand owns are those of its unified
representation (so a bar chart owns exactly one series, per the
unified-series converter), with the second operand's automatic colors
starting where the first operand's allocation left off.  This definition
follows the claim's words; the code instead allocates per element of the
data list (`mergedColorsSpec`). -/
def claimColorsC9 (o1 o2 : Options) (d1 d2 : ChartData) : List String :=
  let n1 := (convertToUnified d1 o1).length
  let n2 := (convertToUnified d2 o2).length
  let part1 := if (o1.getColors).isEmpty then defaultColors.take n1
    else o1.getColors
  let part2 := if (o2.getColors).isEmpty then
      (defaultColors.drop part1.length).take n2
    else o2.getColors
  part1 ++ part2

/-- Counterexample to C9: a bar chart with two categories and no explicit
colors contributes one unified *series* but two data elements.  The code
allocates one default color per data element (three colors in total for
bar(2 categories) * line(1 series)), while the claim's one-color-per-series
rule predicts two. -/
theorem overlay_colors_claim_counterexample :
    ((overlayCharts
        ⟨some (.bar [BarDatum.mk "a" 1, BarDatum.mk "b" 2]), [], 320, 240⟩
        ⟨some (.line [Series.mk "s" []]), [], 320, 240⟩).chart?.map
      fun c => c.options.get "colors") =
      some (some (OptVal.strList ["#658DCD", "#B1A04C", "#75A592"])) ∧
    claimColorsC9 [] [] (.bar [BarDatum.mk "a" 1, BarDatum.mk "b" 2])
      (.line [Series.mk "s" []]) = ["#658DCD", "#B1A04C"] ∧
    (["#658DCD", "#B1A04C", "#75A592"] : List String) ≠
      ["#658DCD", "#B1A04C"] :=
  ⟨rfl, rfl, by decide⟩

/-- C9 amended: for every overlay of two data-carrying charts the result's
colors option is `mergedColorsSpec`: the first operand's explicit colors,
else default colors — one per element of its data list (its series count
for line/scatter, but its category count for bar and bin count for
histogram; 1 when the list is empty) — followed by the second operand's
explicit colors, else default colors taken from the palette starting at
the index where the merged list left off. -/
theorem overlay_colors_merge (c1 c2 : Chart) (d1 d2 : ChartData)
    (h1 : c1.data = some d1) (h2 : c2.data = some d2) :
    ∃ c, overlayCharts c1 c2 = .merged c ∧
      c.options.get "colors" = some (OptVal.strList (mergedColorsSpec
        c1.options.getColors c2.options.getColors
        d1.seriesCount d2.seriesCount)) := by
  unfold overlayCharts
  rw [h1, h2]
  refine ⟨_, rfl, ?_⟩
  unfold mergeOverlayOptions mergedColorsSpec
  rw [Options.get_set_ne _ _ _ _ (by decide),
    Options.get_set_ne _ _ _ _ (by decide), Options.get_set_self]

/-- Witness for the amended C9 at bar(2 categories) * line(1 series),
neither with explicit colors. -/
theorem overlay_colors_merge_witness :
    ∃ c, overlayCharts
        ⟨some (.bar [BarDatum.mk "a" 1, BarDatum.mk "b" 2]), [], 320, 240⟩
        ⟨some (.line [Series.mk "s" []]), [], 320, 240⟩ = .merged c ∧
      c.options.get "colors" = some (OptVal.strList (mergedColorsSpec
        (Options.getColors []) (Options.getColors [])
        (ChartData.bar [BarDatum.mk "a" 1, BarDatum.mk "b" 2]).seriesCount
        (ChartData.line [Series.mk "s" []]).seriesCount)) :=
  overlay_colors_merge
    ⟨some (.bar [BarDatum.mk "a" 1, BarDatum.mk "b" 2]), [], 320, 240⟩
    ⟨some (.line [Series.mk "s" []]), [], 320, 240⟩
    (.bar [BarDatum.mk "a" 1, BarDatum.mk "b" 2])
    (.line [Series.mk "s" []]) rfl rfl

/-- Counterexample to C4: `line` with `x = [1,2,3]` and `y = [4,5]` — a
paired-array length mismatch — raises no validation error; it returns a
chart whose single series holds the two `zip`-truncated points. -/
theorem line_xy_mismatch_counterexample :
    Except.map (fun c => c.data)
      (lineChart (.flat [1, 2, 3]) (some (.flat [4, 5])) .nolabel none
        none none none 320 240 5 5 "right" (0, 0) "standard" "nice"
        false false) =
      .ok (some (.line [Series.mk ""
        [Point.mk 1 4 none none, Point.mk 2 5 none none]])) := rfl

/-- C4 amended: the checked pairs do raise —  `bar` validates
categories/values and `scatter` validates size/x (and labels/x), each with
a `ValueError` naming the arrays, before any render call; but x/y lengths
are *not* validated in `line` or `scatter`: the pairs are formed by `zip`,
silently dropping the excess elements of the longer array. -/
theorem paired_array_length_validation :
    (∀ (cats : List String) (vals : List ℚ) colors title xl yl
        (w h : ℤ) (yt : ℚ) lp lo ls tn (ol ao : Bool),
      cats.length ≠ vals.length →
        barChart cats vals colors title xl yl w h yt lp lo ls tn ol ao =
          .error
            "ValueError: Categories and values arrays must have the same length") ∧
    (∀ (x y s : List ℚ) labels label colors title xl yl (w h : ℤ)
        (xt yt : ℚ) lp lo ls tn (ol ao : Bool) lc lpos,
      s.length ≠ x.length →
        scatterChart x y (some s) labels label colors title xl yl w h
          xt yt lp lo ls tn ol ao lc lpos =
          .error
            "ValueError: Size array must have same length as x and y arrays") ∧
    (∀ (x y : List ℚ) colors title xl yl (w h : ℤ) (xt yt : ℚ) lp lo ls tn
        (ol ao : Bool),
      ∃ ch, lineChart (.flat x) (some (.flat y)) .nolabel colors title xl
          yl w h xt yt lp lo ls tn ol ao = .ok ch ∧
        ch.data = some (.line [Series.mk ""
          ((x.zip y).map fun p => Point.mk p.1 p.2 none none)])) ∧
    (∀ (x y : List ℚ) label colors title xl yl (w h : ℤ) (xt yt : ℚ) lp lo
        ls tn (ol ao : Bool),
      ∃ ch, scatterChart x y none none label colors title xl yl w h xt yt
          lp lo ls tn ol ao none none = .ok ch ∧
        ch.data = some (.scatter [Series.mk
          (match label with
            | some s => if s.trim = "" then "" else s
            | none => "")
          ((x.zip y).mapIdx fun _ p => Point.mk p.1 p.2 none none)])) := by
  refine ⟨?_, ?_, ?_, ?_⟩
  · intro cats vals colors title xl yl w h yt lp lo ls tn ol ao hne
    unfold barChart
    rw [if_pos hne]
  · intro x y s labels label colors title xl yl w h xt yt lp lo ls tn ol
      ao lc lpos hne
    unfold scatterChart
    simp only [if_pos hne]
    rfl
  · intro x y colors title xl yl w h xt yt lp lo ls tn ol ao
    exact ⟨_, rfl, rfl⟩
  · intro x y label colors title xl yl w h xt yt lp lo ls tn ol ao
    exact ⟨_, rfl, rfl⟩

/-- Witness for the amended C4: each conjunct applied at a concrete
input. -/
theorem paired_array_length_validation_witness :
    barChart ["a"] [] none none none none 320 240 5 "right" (0, 0)
        "standard" "nice" false false =
      .error
        "ValueError: Categories and values arrays must have the same length" ∧
    scatterChart [1] [2] (some []) none none none none none none 320 240
        5 5 "right" (0, 0) "standard" "nice" false false none none =
      .error
        "ValueError: Size array must have same length as x and y arrays" ∧
    (∃ ch, lineChart (.flat [1, 2]) (some (.flat [4, 5, 6])) .nolabel none
        none none none 320 240 5 5 "right" (0, 0) "standard" "nice" false
        false = .ok ch ∧
      ch.data = some (.line [Series.mk ""
        ((([1, 2] : List ℚ).zip [4, 5, 6]).map fun p =>
          Point.mk p.1 p.2 none none)])) ∧
    (∃ ch, scatterChart [1, 2] [3] none none none none none none none 320
        240 5 5 "right" (0, 0) "standard" "nice" false false none none =
        .ok ch ∧
      ch.data = some (.scatter [Series.mk
        (match (none : Option String) with
          | some s => if s.trim = "" then "" else s
          | none => "")
        ((([1, 2] : List ℚ).zip [3]).mapIdx fun _ p =>
          Point.mk p.1 p.2 none none)])) :=
  ⟨paired_array_length_validation.1 ["a"] [] none none none none 320 240 5
      "right" (0, 0) "standard" "nice" false false (by decide),
   paired_array_length_validation.2.1 [1] [2] [] none none none none none
      none 320 240 5 5 "right" (0, 0) "standard" "nice" false false none
      none (by decide),
   paired_array_length_validation.2.2.1 [1, 2] [4, 5, 6] none none none
      none 320 240 5 5 "right" (0, 0) "standard" "nice" false false,
   paired_array_length_validation.2.2.2 [1, 2] [3] none none none none
      none 320 240 5 5 "right" (0, 0) "standard" "nice" false false⟩
